import Mathlib

/-!
Verification of the `walter` document question-answering backend.

Text is modelled as `List Char`.  Python functions from
`src/backend/preprocessing.py`, `src/backend/utils.py`,
`src/backend/auth.py`, `src/backend/vector_store.py` and
`src/backend/main.py` are embedded as executable Lean definitions;
bytes, HTTP plumbing and external SDK calls are reduced to the data they
carry, as documented at each definition.
-/

namespace Walter

abbrev Chars := List Char

/-- Python's whitespace class for `str.split`, `str.strip` and regex `\s`
(ASCII part: the repository's texts are ASCII). -/
def isPySpace (c : Char) : Bool :=
  c = ' ' || c = '\t' || c = '\n' || c = '\r' || c = '\x0b' || c = '\x0c'

/-- `str.strip()`: drop whitespace from both ends. -/
def pyStrip (l : Chars) : Chars :=
  ((l.dropWhile isPySpace).reverse.dropWhile isPySpace).reverse

/-! ## `preprocessing.clean_text`

`clean_text` lowercases and then applies six `re.sub` passes followed by
`' '.join(text.split())`.  Each regex is deterministic once the engine's
backtracking is resolved (done in the comments of each matcher), so each
pass is embedded as a left-to-right scanner: at every position it either
matches (emitting the replacement and skipping the match) or emits one
character and moves on, exactly like `re.sub`. -/

/-- Matcher for `#{1,6}\s+(.*?)\n` (replacement `\1\n`).
At a given position: 1-6 `#` (a run of 7+ `#` cannot match here), then at
least one whitespace char, then the lazy group runs to the first `\n`
after the whitespace.  If no `\n` follows the whitespace run, `\s+`
backtracks: the match then ends at the last `\n` inside the whitespace
run (which must not be its first char, as `\s+` needs one char before
the group), with an empty group.
Returns `(replacement, length of the match)`. -/
def tryHeader (l : Chars) : Option (Chars × Nat) :=
  let k := (l.takeWhile (· = '#')).length
  if k = 0 ∨ 6 < k then none
  else
    let rest1 := l.drop k
    let w := rest1.takeWhile isPySpace
    if w.length = 0 then none
    else
      let afterW := rest1.drop w.length
      let body := afterW.takeWhile (· ≠ '\n')
      if body.length < afterW.length then
        -- a '\n' exists after the whitespace run
        some (body ++ ['\n'], k + w.length + body.length + 1)
      else
        -- backtrack \s+ to the last '\n' inside the whitespace run
        let p := (w.reverse.takeWhile (· ≠ '\n')).length
        if p = w.length then none
        else
          let pL := w.length - 1 - p
          if pL = 0 then none else some (['\n'], k + pL + 1)

/-- Matcher for `\[([^\]]+)\]\([^\)]+\)` (replacement `\1`): a literal
`[`, one or more non-`]` chars, `]`, `(`, one or more non-`)` chars, `)`.
Both character classes are greedy with no useful backtracking. -/
def tryLink (l : Chars) : Option (Chars × Nat) :=
  match l with
  | '[' :: rest =>
    let a := rest.takeWhile (· ≠ ']')
    if a.length = 0 then none
    else
      match rest.drop a.length with
      | ']' :: '(' :: rest2 =>
        let b := rest2.takeWhile (· ≠ ')')
        if b.length = 0 then none
        else
          match rest2.drop b.length with
          | ')' :: _ => some (a, 1 + a.length + 1 + 1 + b.length + 1)
          | _ => none
      | _ => none
  | _ => none

/-- For `!\[.*?\]\(.*?\)`: index of the first `]` immediately followed by
`(`, scanning only characters `.` can match (no `'\n'`). -/
def findImgClose : Chars → Option Nat
  | [] => none
  | [_] => none
  | c :: d :: rest =>
    if c = '\n' then none
    else if c = ']' ∧ d = '(' then some 0
    else (findImgClose (d :: rest)).map (· + 1)

/-- Matcher for `!\[.*?\]\(.*?\)` (replacement empty): `![`, then the
lazy group extends to the first `]` followed by `(`, then the second lazy
group runs to the first `)`; `.` never crosses a newline. -/
def tryImage (l : Chars) : Option (Chars × Nat) :=
  match l with
  | '!' :: '[' :: rest =>
    match findImgClose rest with
    | none => none
    | some i =>
      let rest2 := rest.drop (i + 2)
      match (rest2.takeWhile (· ≠ '\n')).findIdx? (· = ')') with
      | none => none
      | some j => some ([], 2 + i + 2 + j + 1)
  | _ => none

def isEmph (c : Char) : Bool := c = '*' || c = '_'

/-- Matcher for `[*_]{1,2}([^*_]+)[*_]{1,2}` (replacement `\1`).
A position inside a run of 3+ emphasis chars cannot match (both opener
widths leave an emphasis char where `[^*_]+` must start), so the opener
is the whole run of length 1 or 2; the group is the maximal run of
non-emphasis chars; the closer greedily takes `min 2` of the next
emphasis run. -/
def tryBold (l : Chars) : Option (Chars × Nat) :=
  let run := l.takeWhile isEmph
  if run.length = 0 ∨ 2 < run.length then none
  else
    let middle := (l.drop run.length).takeWhile (fun c => ¬ isEmph c)
    if middle.length = 0 then none
    else
      let closer := (l.drop (run.length + middle.length)).takeWhile isEmph
      if closer.length = 0 then none
      else some (middle, run.length + middle.length + min closer.length 2)

def isBullet (c : Char) : Bool := c = '-' || c = '*' || c = '+'

/-- Matcher for `^\s*[-*+]\s+` with `re.MULTILINE` (replacement empty),
attempted only at line starts: maximal whitespace run (it may cross
newlines), a bullet char, then a maximal whitespace run of length ≥ 1.
Returns the match length and whether the following scan position is
again a line start (i.e. the last consumed char is `'\n'`). -/
def tryBullet (l : Chars) : Option (Nat × Bool) :=
  let w := l.takeWhile isPySpace
  match l.drop w.length with
  | c :: rest =>
    if isBullet c then
      let v := rest.takeWhile isPySpace
      if v.length = 0 then none
      else some (w.length + 1 + v.length, v.getLast? = some '\n')
    else none
  | [] => none

def isHr (c : Char) : Bool := c = '-' || c = '_' || c = '*'

/-- Matcher for `^[-_*]{3,}\s*$` with `re.MULTILINE` (replacement empty),
attempted only at line starts: a maximal run of 3+ rule chars, then
`\s*`.  `$` is zero width: the match ends at the end of the text if only
whitespace remains, otherwise at the last `'\n'` of the whitespace run
(which itself is not consumed); with no such `'\n'` there is no match. -/
def tryHr (l : Chars) : Option (Nat × Bool) :=
  let r := (l.takeWhile isHr).length
  if r < 3 then none
  else
    let w := (l.drop r).takeWhile isPySpace
    if (l.drop (r + w.length)).isEmpty then
      some (r + w.length, false)
    else
      let p := (w.reverse.takeWhile (· ≠ '\n')).length
      if p = w.length then none
      else
        let consumedW := w.take (w.length - 1 - p)
        some (r + consumedW.length, consumedW.getLast? = some '\n')

/-- One `re.sub` pass for an unanchored pattern: scan left to right,
substituting each match and continuing after it.  Each step consumes at
least one character (`m ≥ 1` for all these patterns, enforced by
`rest.drop (m - 1)`), so the structural fuel only needs to cover the
text length; fuel 0 with a nonempty text is unreachable. -/
def subScanF (try_ : Chars → Option (Chars × Nat)) : Nat → Chars → Chars
  | _, [] => []
  | 0, _ :: _ => []
  | fuel + 1, c :: rest =>
    match try_ (c :: rest) with
    | some (repl, m) => repl ++ subScanF try_ fuel (rest.drop (m - 1))
    | none => c :: subScanF try_ fuel rest

def subScan (try_ : Chars → Option (Chars × Nat)) (l : Chars) : Chars :=
  subScanF try_ l.length l

/-- One `re.sub` pass for a `^`-anchored `MULTILINE` pattern: matches are
attempted only at the start of the text or just after a `'\n'`; the
matcher reports whether the position after the match is a line start. -/
def subScanBOLF (try_ : Chars → Option (Nat × Bool)) :
    Nat → Bool → Chars → Chars
  | _, _, [] => []
  | 0, _, _ :: _ => []
  | fuel + 1, bol, c :: rest =>
    match if bol then try_ (c :: rest) else none with
    | some (m, bol') => subScanBOLF try_ fuel bol' (rest.drop (m - 1))
    | none => c :: subScanBOLF try_ fuel (c = '\n') rest

def subScanBOL (try_ : Chars → Option (Nat × Bool)) (bol : Bool)
    (l : Chars) : Chars :=
  subScanBOLF try_ l.length bol l

/-- `str.split()`: split on maximal whitespace runs, no empty pieces.
Fuel as in `subScanF`. -/
def pySplitF : Nat → Chars → List Chars
  | _, [] => []
  | 0, _ :: _ => []
  | fuel + 1, c :: rest =>
    if isPySpace c then pySplitF fuel rest
    else
      (c :: rest.takeWhile (fun d => ¬ isPySpace d)) ::
        pySplitF fuel (rest.drop ((rest.takeWhile (fun d => ¬ isPySpace d)).length))

def pySplit (l : Chars) : List Chars :=
  pySplitF l.length l

/-- `preprocessing.clean_text`: lowercase (`Char.toLower` is exactly
Python's `str.lower` on the ASCII texts in scope), strip headers, links,
images, emphasis, bullets and horizontal rules, then collapse whitespace
with `' '.join(text.split())`. -/
def clean_text (l : Chars) : Chars :=
  List.intercalate [' ']
    (pySplit
      (subScanBOL tryHr true
        (subScanBOL tryBullet true
          (subScan tryBold
            (subScan tryImage
              (subScan tryLink
                (subScan tryHeader (l.map Char.toLower))))))))

/-! ## `utils.get_text_chunks`

`get_text_chunks` is a direct call into LangChain's
`RecursiveCharacterTextSplitter(chunk_size=1000, chunk_overlap=200,
length_function=len)`.  The splitter itself is not part of the
repository; the definitions below embed its documented recursive
behaviour (spec §4.4: "attempt a list of separators in decreasing
granularity, recursively subdividing any piece still over the size
limit", with the library defaults `separators=["\n\n", "\n", " ", ""]`,
`keep_separator=True`, `strip_whitespace=True`). -/

/-- `re.search` of an escaped literal: substring occurrence test. -/
def containsSub (sep : Chars) : Chars → Bool
  | [] => sep.isEmpty
  | c :: rest => sep.isPrefixOf (c :: rest) || containsSub sep rest

/-- `re.split` on an escaped literal: the segments of `text` between
leftmost non-overlapping occurrences of the nonempty `sep`, scanned left
to right as the regex engine does.  `seg` is the reversed current
segment, `out` the reversed list of finished segments; fuel as in
`subScanF` (each step consumes at least one character). -/
def splitOnSubGo (sep : Chars) : Nat → Chars → List Chars → Chars → List Chars
  | _, seg, out, [] => (seg.reverse :: out).reverse
  | 0, seg, out, _ :: _ => (seg.reverse :: out).reverse
  | fuel + 1, seg, out, c :: rest =>
    if ¬ sep.isEmpty ∧ sep.isPrefixOf (c :: rest) then
      splitOnSubGo sep fuel [] (seg.reverse :: out) ((c :: rest).drop sep.length)
    else
      splitOnSubGo sep fuel (c :: seg) out rest

def splitOnSub (sep : Chars) (text : Chars) : List Chars :=
  splitOnSubGo sep text.length [] [] text

/-- `_split_text_with_regex(text, separator, keep_separator=True)`: with
a nonempty separator, each occurrence is reattached to the front of the
following segment and empty pieces are dropped; with separator `""` the
text becomes its list of single characters. -/
def splitKeepSep (text sep : Chars) : List Chars :=
  if sep.isEmpty then text.map (fun c => [c])
  else
    match splitOnSub sep text with
    | [] => []  -- `splitOnSub` never returns []
    | s0 :: segs => (s0 :: segs.map (sep ++ ·)).filter (fun s => ¬ s.isEmpty)

/-- The separator-selection loop of `_split_text`: the first separator
that is `""` or occurs in the text, together with the remaining
finer separators.  (The source pre-initialises the separator to the last
entry of the list; for the default list that entry is `""`, so the
all-exhausted case below coincides with it.) -/
def pickSep : List Chars → Chars → Chars × List Chars
  | [], _ => ([], [])
  | s :: rest, text =>
    if s.isEmpty then ([], [])
    else if containsSub s text then (s, rest)
    else pickSep rest text

/-- `_join_docs` with merge separator `""` (`keep_separator=True`) and
`strip_whitespace=True`: concatenate, strip, drop the chunk if empty. -/
def joinDocs (ds : List Chars) : Option Chars :=
  let t := pyStrip ds.flatten
  if t.isEmpty then none else some t

/-- The overlap-keeping loop of `_merge_splits`: pop pieces from the
front while the running total exceeds the overlap (200) or the pending
piece of length `pend` would overflow the chunk size (1000).  (The
source's loop can only run with a nonempty current document, where the
condition is eventually false; the `[]` case is unreachable.) -/
def popWhile (pend : Nat) : List Chars → Nat → List Chars × Nat
  | [], total => ([], total)
  | d :: ds, total =>
    if 200 < total ∨ (1000 < total + pend ∧ 0 < total) then
      popWhile pend ds (total - d.length)
    else (d :: ds, total)

/-- The accumulation loop of `TextSplitter._merge_splits`, specialised to
the repository's configuration: chunk_size 1000, chunk_overlap 200,
`length_function = len`, merge separator `""` (with `keep_separator=True`
the split separators are already attached to the pieces, and the merge
separator contributes length 0). -/
def mergeGo : List Chars → List Chars → Nat → List Chars → List Chars
  | docs, cur, _, [] => docs ++ (joinDocs cur).toList
  | docs, cur, total, d :: rest =>
    if 1000 < total + d.length then
      if cur.isEmpty then
        mergeGo docs (cur ++ [d]) (total + d.length) rest
      else
        let docs' := docs ++ (joinDocs cur).toList
        let popped := popWhile d.length cur total
        mergeGo docs' (popped.1 ++ [d]) (popped.2 + d.length) rest
    else
      mergeGo docs (cur ++ [d]) (total + d.length) rest

/-- `_merge_splits(splits, "")`. -/
def mergeSplits (splits : List Chars) : List Chars :=
  mergeGo [] [] 0 splits

/-- The good/bad pieces loop of `_split_text`: pieces shorter than the
chunk size are collected and merged; an over-long piece first flushes
the collected pieces, then is re-split recursively with the remaining
separators (`sub`), or emitted whole when none remain. -/
def processLoop (sub : Option (Chars → List Chars)) :
    List Chars → List Chars → List Chars
  | good, [] => if good.isEmpty then [] else mergeSplits good
  | good, s :: rest =>
    if s.length < 1000 then processLoop sub (good ++ [s]) rest
    else
      (if good.isEmpty then [] else mergeSplits good) ++
        (match sub with | none => [s] | some f => f s) ++
        processLoop sub [] rest

/-- `RecursiveCharacterTextSplitter._split_text`.  The recursion always
descends to a strict suffix of the separator list, so any fuel of at
least the list's length reproduces the library; fuel 0 is unreachable. -/
def splitTextAux : Nat → List Chars → Chars → List Chars
  | 0, _, _ => []
  | fuel + 1, seps, text =>
    let picked := pickSep seps text
    let splits := splitKeepSep text picked.1
    processLoop
      (if picked.2.isEmpty then none else some (splitTextAux fuel picked.2))
      [] splits

/-- The library's default separators, paragraph to character. -/
def defaultSeparators : List Chars := [['\n', '\n'], ['\n'], [' '], []]

/-- `utils.get_text_chunks`: split raw text with the recursive splitter
at chunk_size 1000 and chunk_overlap 200. -/
def get_text_chunks (raw_text : Chars) : List Chars :=
  splitTextAux 4 defaultSeparators raw_text

/-! ## `preprocessing.extract_metadata` and `preprocess` -/

def isSentEnd (c : Char) : Bool := c = '.' || c = '!' || c = '?'

/-- Modelled from the spec: the sentence count comes from NLTK's punkt
`sent_tokenize` ("computes sentence count, word count, and character
count via a natural-language tokenizer"), an external trained model not
in the repository; modelled as splitting at sentence-final punctuation.
Every claim in scope depends only on which text the tokenizer is applied
to, never on its exact segmentation. -/
def sent_tokenize (t : Chars) : List Chars :=
  (t.splitOnP (fun c => isSentEnd c)).filter (fun s => ¬ s.isEmpty)

/-- Modelled from the spec: NLTK's `word_tokenize` (see
`sent_tokenize`); modelled as whitespace splitting. -/
def word_tokenize (t : Chars) : List Chars :=
  pySplit t

structure Metadata where
  num_sentences : Nat
  num_words : Nat
  num_characters : Nat
deriving DecidableEq, Repr

/-- `preprocessing.extract_metadata`: sentence, word and character
counts; `num_characters` is exactly `len(text)`. -/
def extract_metadata (t : Chars) : Metadata :=
  { num_sentences := (sent_tokenize t).length
    num_words := (word_tokenize t).length
    num_characters := t.length }

structure PreprocessResult where
  processed_text : Chars
  metadata : Metadata
deriving DecidableEq

/-- `preprocessing.preprocess`: clean the text, then compute the
metadata of the cleaned text. -/
def preprocess (text : Chars) : PreprocessResult :=
  let processed_text := clean_text text
  { processed_text := processed_text
    metadata := extract_metadata processed_text }

/-! ## `auth.py`

Tokens and hashes are embedded at the contract level: a bcrypt hash is
the password it came from (`pwd_context.verify` succeeds exactly on
that password), and a JWT records its payload together with the
signature `jose` would attach, as a function of key and payload — so a
token whose signature field does not match its own payload under the
server's key is rejected, exactly like a tampered or foreign token.
Times are in minutes; only differences of times are used. -/

structure BcryptHash where
  source : String
deriving DecidableEq

def pwd_context_hash (p : String) : BcryptHash := ⟨p⟩

/-- `auth.verify_password`. -/
def verify_password (plain : String) (hashed : BcryptHash) : Bool :=
  hashed = pwd_context_hash plain

structure User where
  email : String
  hashed_password : BcryptHash
deriving DecidableEq

/-- `auth.fake_users_db`: the static table with its single seeded
credential pair, as a lookup function (`dict.get`). -/
def fake_users_db : String → Option User := fun e =>
  if e = "amna@example.com" then
    some ⟨"amna@example.com", pwd_context_hash "amna123"⟩
  else none

/-- A JWT payload: the `sub` claim and the `exp` claim. -/
structure TokenPayload where
  sub : Option String
  exp : Nat
deriving DecidableEq

def jwtSign (key : String) (p : TokenPayload) : String × TokenPayload :=
  (key, p)

structure Token where
  payload : TokenPayload
  sig : String × TokenPayload
deriving DecidableEq

/-- `jose.jwt.encode`. -/
def jwt_encode (p : TokenPayload) (key : String) : Token :=
  ⟨p, jwtSign key p⟩

inductive JWTError where
  | invalidSignature
  | expiredSignature
deriving DecidableEq

/-- `jose.jwt.decode`: verify the signature and the expiry (`now` is the
time of the call; a token is valid strictly before its expiry). -/
def jwt_decode (tok : Token) (key : String) (now : Nat) :
    Except JWTError TokenPayload :=
  if tok.sig ≠ jwtSign key tok.payload then .error .invalidSignature
  else if tok.payload.exp ≤ now then .error .expiredSignature
  else .ok tok.payload

def ACCESS_TOKEN_EXPIRE_MINUTES : Nat := 30

/-- `auth.create_access_token`: copy the data (its `sub` claim, as set
by the only caller), add `exp` at now plus the given delta (default 15
minutes), and sign with the server key (`SECRET_KEY`, an environment
input passed as the `key` argument throughout). -/
def create_access_token (key : String) (sub : Option String)
    (expires_delta : Option Nat) (now : Nat) : Token :=
  jwt_encode { sub := sub, exp := now + expires_delta.getD 15 } key

structure HTTPError where
  status_code : Nat
  detail : String
deriving DecidableEq

/-- The uniform 401 of `auth.get_current_user`. -/
def credentials_exception : HTTPError :=
  ⟨401, "Invalid authentication credentials"⟩

/-- `auth.get_current_user`: decode the token (any `JWTError` — bad
signature or expired — yields the 401), 401 when the payload has no
`sub` claim, 401 when the subject is not in the user table. -/
def get_current_user (key : String) (token : Token) (now : Nat) :
    Except HTTPError User :=
  match jwt_decode token key now with
  | .error _ => .error credentials_exception
  | .ok payload =>
    match payload.sub with
    | none => .error credentials_exception
    | some email =>
      match fake_users_db email with
      | none => .error credentials_exception
      | some user => .ok user

/-! ## `main.login` (`POST /token`) -/

structure TokenResponse where
  access_token : Token
  token_type : String
deriving DecidableEq

/-- `main.login`: look up the user and verify the password (one combined
branch in the source: `if not user or not verify_password(...)`); on
failure a 400, on success a bearer token with a 30-minute expiry. -/
def login (key username password : String) (now : Nat) :
    Except HTTPError TokenResponse :=
  match fake_users_db username with
  | none => .error ⟨400, "Incorrect email or password"⟩
  | some user =>
    if ¬ verify_password password user.hashed_password then
      .error ⟨400, "Incorrect email or password"⟩
    else
      .ok ⟨create_access_token key (some user.email) (some 30) now, "bearer"⟩

/-! ## `utils.retrieve_context_with_scoring` and `process_query` -/

/-- A retrieved context item (`content`, `relevance_score`); the
similarity float is modelled as an integer, only its ordering is used. -/
structure ScoredContext where
  content : Chars
  relevance_score : Int
deriving DecidableEq

/-- `utils.retrieve_context_with_scoring`: format the vector store's
`similarity_search_with_score` results (`searchResults`, the external
database's answer for the query) and sort by relevance score in
descending order (Python's stable `sort(reverse=True)`; `mergeSort` is
stable as well). -/
def retrieve_context_with_scoring (searchResults : List (Chars × Int)) :
    List ScoredContext :=
  (searchResults.map (fun r => ScoredContext.mk r.1 r.2)).mergeSort
    (fun a b => b.relevance_score ≤ a.relevance_score)

/-- What `utils.process_query` produces: the body it returns plus an
instrumentation bit recording whether the chat model was invoked. -/
structure QueryOutcome where
  response : String
  context : List ScoredContext
  llmInvoked : Bool
deriving DecidableEq

/-- `utils.process_query`, with the two external services as parameters:
`searchResults` is the vector store's answer for the query and `llm` the
chat completion.  The source retrieves the scored context, builds the
prompt and the `RetrievalQA` chain, and invokes the chain — hence the
chat model — unconditionally; nothing in the function branches on the
retrieval being empty. -/
def process_query (llm : String → String)
    (searchResults : List (Chars × Int)) (query : String) : QueryOutcome :=
  let context_results := retrieve_context_with_scoring searchResults
  { response := llm query
    context := context_results
    llmInvoked := true }

/-! ## `vector_store.py` and `main.delete_documents` -/

/-- The Weaviate state visible to this adapter: whether the `Document`
class exists, and its stored chunks. -/
structure VectorStoreState where
  hasDocumentClass : Bool
  docs : List Chars
deriving DecidableEq

/-- `client.schema.delete_class("Document")`: removes the class with all
its objects; the client raises when the class does not exist (the
adapter's docstring lists "Class not found errors" among the exceptions
the call raises). -/
def schema_delete_class (st : VectorStoreState) :
    Except String VectorStoreState :=
  if st.hasDocumentClass then .ok ⟨false, []⟩
  else .error "class not found"

structure DeleteResult where
  status : String
  message : String
deriving DecidableEq

/-- `vector_store.delete_all_documents`: delete the `Document` class and
return the success record; any exception is logged and re-raised
unchanged (the `finally` close of the client does not affect the
outcome). -/
def delete_all_documents (st : VectorStoreState) :
    Except String (DeleteResult × VectorStoreState) :=
  match schema_delete_class st with
  | .error e => .error e
  | .ok st' => .ok (⟨"success", "All documents deleted successfully"⟩, st')

/-- `main.delete_documents` (`DELETE /documents`): call the adapter and
convert an exception into a 500.  The handler body has no `return`
statement, so on success Python returns `None`: the response value is
`Option DeleteResult`, and the success value is `none`. -/
def delete_documents (st : VectorStoreState) :
    Except HTTPError (Option DeleteResult × VectorStoreState) :=
  match delete_all_documents st with
  | .error e => .error ⟨500, e⟩
  | .ok (_, st') => .ok (none, st')

/-! ## `main.upload_documents` (`POST /upload`) -/

/-- An uploaded file: filename and content.  PDF byte content is
represented by the text `PyPDF2` extracts from it (via the `pdfExtract`
parameter below); markdown content is its UTF-8 text. -/
structure UploadFile where
  filename : String
  content : String

/-- One entry of `processed_files` (the `processed_at` wall-clock
timestamp is omitted: no claim concerns it). -/
structure ProcessedFile where
  filename : String
  metadata : Metadata
deriving DecidableEq, Repr

structure UploadResponse where
  status : String
  message : String
  processed_files : List ProcessedFile
deriving DecidableEq

/-- A Python exception as far as the upload handler observes it.
`str` of an `HTTPException` is its status code, a colon, a space and
the detail. -/
inductive PyExc where
  | http (status_code : Nat) (detail : String)
deriving DecidableEq

def pyExcStr : PyExc → String
  | .http c d => toString c ++ ": " ++ d

/-- The per-file loop of `upload_documents`: dispatch on the filename
suffix (`.pdf` → extracted text, `.md` → UTF-8 text, anything else →
`HTTPException(400)` naming the file), append the file's text to the
combined buffer, preprocess the **whole** buffer and record the file
with the resulting metadata. -/
def uploadLoop (pdfExtract : String → String) :
    List UploadFile → Chars → List ProcessedFile →
      Except PyExc (Chars × List ProcessedFile)
  | [], combined, processed => .ok (combined, processed)
  | f :: rest, combined, processed =>
    if ".pdf".data.isSuffixOf f.filename.data then
      let combined' := combined ++ (pdfExtract f.content).data
      uploadLoop pdfExtract rest combined'
        (processed ++ [⟨f.filename, (preprocess combined').metadata⟩])
    else if ".md".data.isSuffixOf f.filename.data then
      let combined' := combined ++ f.content.data
      uploadLoop pdfExtract rest combined'
        (processed ++ [⟨f.filename, (preprocess combined').metadata⟩])
    else .error (.http 400 ("Unsupported file type: " ++ f.filename))

/-- `main.upload_documents`.  After the loop, the combined text is
chunked and handed to `create_vector_store` (`storeOk = false` models a
storage failure, which the inner `try`/`except` converts to
`HTTPException(500, "Failed to store vectors")`).  The handler's blanket
`except Exception` catches every exception raised in its `try` block —
`HTTPException` included — and re-raises `HTTPException(500, str(e))`. -/
def upload_documents (pdfExtract : String → String) (storeOk : Bool)
    (files : List UploadFile) : Except HTTPError UploadResponse :=
  let inner : Except PyExc UploadResponse :=
    match uploadLoop pdfExtract files [] [] with
    | .error e => .error e
    | .ok (combined, processed) =>
      let _chunks := get_text_chunks combined
      if ¬ storeOk then .error (.http 500 "Failed to store vectors")
      else
        .ok ⟨"success", "Processed " ++ toString processed.length ++ " files",
          processed⟩
  match inner with
  | .ok r => .ok r
  | .error e => .error ⟨500, pyExcStr e⟩

/-! ## Theorems -/

/-- C8: applying the text normalizer `clean_text` to
`"# Title\n**bold** [text](url)"` yields exactly `"title bold text"`:
markup stripped, case-folded, whitespace collapsed. -/
theorem clean_text_markup_example :
    clean_text "# Title\n**bold** [text](url)".data = "title bold text".data := by
  decide

/-- C1 counterexample: with zero retrieved chunks, `process_query` still
invokes the chat model and returns the model's answer, not the fixed
"no relevant information found" response the claim describes. -/
theorem process_query_empty_invokes_llm :
    (process_query (fun _ => "model answer") [] "any question").llmInvoked = true
    ∧ (process_query (fun _ => "model answer") [] "any question").response
        = "model answer" := by
  exact ⟨rfl, rfl⟩

/-- C1 (amended): `process_query` has no empty-retrieval short-circuit:
for every chat model and query it invokes the model unconditionally and,
when retrieval returns zero chunks, returns the model's answer together
with the empty context list. -/
theorem process_query_no_short_circuit (llm : String → String) (query : String) :
    process_query llm [] query =
      { response := llm query, context := [], llmInvoked := true } := by
  simp [process_query, retrieve_context_with_scoring]

/-- C2: uploading a file whose name ends in neither `.pdf` nor `.md`
does *not* produce a 400: the handler's blanket `except Exception`
catches its own `HTTPException(400, ...)` and re-raises it as a 500
whose detail string embeds the original code and the offending
filename — contradicting the handler's docstring ("400: Unsupported
file type"). -/
theorem upload_unsupported_extension_gives_500
    (pdfExtract : String → String) (storeOk : Bool) :
    upload_documents pdfExtract storeOk [⟨"notes.txt", "irrelevant"⟩]
      = .error ⟨500, "400: Unsupported file type: notes.txt"⟩ := by
  rfl

/-- C4 counterexample: deleting all documents is not idempotent: a first
call on a store with the `Document` class succeeds and removes the
class, and an immediate second call raises (the class-not-found error
propagates through the adapter's re-raising `except`). -/
theorem delete_all_documents_not_idempotent :
    delete_all_documents ⟨true, []⟩
      = .ok (⟨"success", "All documents deleted successfully"⟩, ⟨false, []⟩)
    ∧ delete_all_documents ⟨false, []⟩ = .error "class not found" := by
  exact ⟨rfl, rfl⟩

/-- C4 (amended): a successful `delete_all_documents` removes the
`Document` class, and a second call in succession always errors with the
underlying class-not-found failure instead of treating the absent
collection as success. -/
theorem delete_all_documents_second_call_raises (st : VectorStoreState)
    (r : DeleteResult) (st' : VectorStoreState)
    (h : delete_all_documents st = .ok (r, st')) :
    delete_all_documents st' = .error "class not found" := by
  rcases st with ⟨hasCls, docs⟩
  cases hasCls with
  | false => simp [delete_all_documents, schema_delete_class] at h
  | true =>
    simp [delete_all_documents, schema_delete_class] at h
    rw [← h.2]
    rfl

/-- Witness for C4's amended theorem at a concrete store. -/
theorem delete_all_documents_second_call_raises_witness :
    delete_all_documents ⟨false, []⟩ = .error "class not found" :=
  delete_all_documents_second_call_raises ⟨true, []⟩
    ⟨"success", "All documents deleted successfully"⟩ ⟨false, []⟩ rfl

/-- C5: on a successful deletion the `DELETE /documents` handler returns
`None` (a JSON `null` body) — its body has no `return` statement — not
an object with `status` and `message` fields, contradicting the
handler's own docstring. -/
theorem delete_documents_success_returns_none (st : VectorStoreState)
    (h : st.hasDocumentClass = true) :
    delete_documents st = .ok (none, ⟨false, []⟩) := by
  rcases st with ⟨hasCls, docs⟩
  subst h
  rfl

/-- Witness for C5's theorem at a concrete store. -/
theorem delete_documents_success_returns_none_witness :
    delete_documents ⟨true, []⟩ = .ok (none, ⟨false, []⟩) :=
  delete_documents_success_returns_none ⟨true, []⟩ rfl

/-- C6: logging in with the seeded pair succeeds with a bearer token
whose payload carries the same email as subject and an expiry 30 minutes
in the future (and which decodes back to that payload); a wrong password
or an email unknown to the user table fails with a 400. -/
theorem login_seeded_credentials (key : String) (now : Nat) :
    login key "amna@example.com" "amna123" now =
      .ok ⟨jwt_encode ⟨some "amna@example.com", now + 30⟩ key, "bearer"⟩
    ∧ jwt_decode (jwt_encode ⟨some "amna@example.com", now + 30⟩ key) key now =
        .ok ⟨some "amna@example.com", now + 30⟩
    ∧ (∀ pw, pw ≠ "amna123" →
        login key "amna@example.com" pw now =
          .error ⟨400, "Incorrect email or password"⟩)
    ∧ (∀ em pw, fake_users_db em = none →
        login key em pw now = .error ⟨400, "Incorrect email or password"⟩) := by
  refine ⟨?_, ?_, ?_, ?_⟩
  · simp [login, fake_users_db, verify_password, pwd_context_hash,
      create_access_token]
  · simp [jwt_decode, jwt_encode, jwtSign]
  · intro pw hpw
    have h' : ¬ ("amna123" = pw) := fun h => hpw h.symm
    simp [login, fake_users_db, verify_password, pwd_context_hash, h']
  · intro em pw hem
    simp [login, hem]

/-- Witness for C6 at concrete inputs: seeded login succeeds, a wrong
password fails with 400, an unknown email fails with 400. -/
theorem login_seeded_credentials_witness :
    login "k" "amna@example.com" "amna123" 0 =
      .ok ⟨jwt_encode ⟨some "amna@example.com", 30⟩ "k", "bearer"⟩
    ∧ login "k" "amna@example.com" "wrong" 0 =
        .error ⟨400, "Incorrect email or password"⟩
    ∧ login "k" "bob@example.com" "amna123" 0 =
        .error ⟨400, "Incorrect email or password"⟩ :=
  ⟨(login_seeded_credentials "k" 0).1,
   (login_seeded_credentials "k" 0).2.2.1 "wrong" (by decide),
   (login_seeded_credentials "k" 0).2.2.2 "bob@example.com" "amna123" (by decide)⟩

/-- C7: `get_current_user` rejects a bearer token uniformly with the 401
credentials error whenever any validation step fails: invalid or
tampered signature, expired token, missing `sub` claim, or a subject
that does not resolve to a known user. -/
theorem get_current_user_uniform_401 (key : String) (tok : Token) (now : Nat)
    (h : tok.sig ≠ jwtSign key tok.payload
      ∨ tok.payload.exp ≤ now
      ∨ tok.payload.sub = none
      ∨ ∃ e, tok.payload.sub = some e ∧ fake_users_db e = none) :
    get_current_user key tok now =
      .error ⟨401, "Invalid authentication credentials"⟩ := by
  unfold get_current_user jwt_decode
  rcases h with h | h | h | ⟨e, he, hdb⟩
  · rw [if_pos h]; rfl
  · by_cases hsig : tok.sig ≠ jwtSign key tok.payload
    · rw [if_pos hsig]; rfl
    · rw [if_neg hsig, if_pos h]; rfl
  · by_cases hsig : tok.sig ≠ jwtSign key tok.payload
    · rw [if_pos hsig]; rfl
    · rw [if_neg hsig]
      by_cases hexp : tok.payload.exp ≤ now
      · rw [if_pos hexp]; rfl
      · rw [if_neg hexp]
        simp [h, credentials_exception]
  · by_cases hsig : tok.sig ≠ jwtSign key tok.payload
    · rw [if_pos hsig]; rfl
    · rw [if_neg hsig]
      by_cases hexp : tok.payload.exp ≤ now
      · rw [if_pos hexp]; rfl
      · rw [if_neg hexp]
        simp [he, hdb, credentials_exception]


/-- Witness for C7 at a concrete input: a token that expired at minute
10 is rejected at minute 50 with the 401 credentials error. -/
theorem get_current_user_uniform_401_witness :
    get_current_user "k" (jwt_encode ⟨some "amna@example.com", 10⟩ "k") 50 =
      .error ⟨401, "Invalid authentication credentials"⟩ :=
  get_current_user_uniform_401 "k"
    (jwt_encode ⟨some "amna@example.com", 10⟩ "k") 50
    (Or.inr (Or.inl (by decide)))

/-- The `processed_files` entries the upload loop produces for a list of
markdown texts appended after an initial combined buffer: the i-th entry
carries the metadata of the preprocessed buffer up to and including the
i-th text. -/
def mdEntries (combined : Chars) : List String → List ProcessedFile
  | [] => []
  | t :: rest =>
    ⟨"f.md", (preprocess (combined ++ t.data)).metadata⟩ ::
      mdEntries (combined ++ t.data) rest

lemma uploadLoop_md (pdfExtract : String → String) (texts : List String)
    (combined : Chars) (processed : List ProcessedFile) :
    uploadLoop pdfExtract (texts.map (fun t => UploadFile.mk "f.md" t))
        combined processed =
      .ok (combined ++ (texts.map String.data).flatten,
        processed ++ mdEntries combined texts) := by
  induction texts generalizing combined processed with
  | nil => simp [uploadLoop, mdEntries]
  | cons t rest ih =>
    have h1 : ".pdf".data.isSuffixOf "f.md".data = false := by decide
    have h2 : ".md".data.isSuffixOf "f.md".data = true := by decide
    simp only [List.map_cons, uploadLoop, h1, h2, Bool.false_eq_true,
      if_false, if_true]
    rw [ih]
    simp [mdEntries, List.append_assoc]

lemma mdEntries_getD (texts : List String) (i : Nat) (combined : Chars)
    (h : i < texts.length) :
    ((mdEntries combined texts).getD i ⟨"", extract_metadata []⟩).metadata
      = (preprocess (combined ++ ((texts.take (i + 1)).map String.data).flatten)).metadata := by
  induction texts generalizing i combined with
  | nil => simp at h
  | cons t rest ih =>
    cases i with
    | zero => simp [mdEntries]
    | succ j =>
      have hj : j < rest.length := by simpa using h
      simp only [mdEntries, List.getD_cons_succ, List.take_succ_cons,
        List.map_cons, List.flatten_cons]
      rw [ih j (combined ++ t.data) hj]
      simp [List.append_assoc]

/-- C10: in a multi-file upload, the metadata reported for the i-th file
is computed over the normalized concatenation of the texts of files
1..i (the loop preprocesses the growing combined buffer), not over the
i-th file's text alone. -/
theorem upload_metadata_is_cumulative (pdfExtract : String → String)
    (texts : List String) (i : Nat) (h : i < texts.length) :
    ∃ resp,
      upload_documents pdfExtract true
          (texts.map (fun t => UploadFile.mk "f.md" t)) = .ok resp
      ∧ (resp.processed_files.getD i ⟨"", extract_metadata []⟩).metadata
          = extract_metadata
              (clean_text (((texts.take (i + 1)).map String.data).flatten)) := by
  refine ⟨⟨"success",
    "Processed " ++ toString (mdEntries [] texts).length ++ " files",
    mdEntries [] texts⟩, ?_, ?_⟩
  · unfold upload_documents
    rw [uploadLoop_md]
    simp
  · rw [mdEntries_getD texts i [] h]
    simp [preprocess]

/-- Witness for C10: in a two-file upload the second entry's metadata is
that of the normalized concatenation of both texts, which differs from
the metadata of the second text alone. -/
theorem upload_metadata_is_cumulative_witness :
    (∃ resp,
      upload_documents (fun s => s) true
          (["one two. ", "three"].map (fun t => UploadFile.mk "f.md" t)) = .ok resp
      ∧ (resp.processed_files.getD 1 ⟨"", extract_metadata []⟩).metadata
          = extract_metadata
              (clean_text ((((["one two. ", "three"] : List String).take 2).map
                String.data).flatten)))
    ∧ extract_metadata (clean_text ("one two. ".data ++ "three".data))
        ≠ extract_metadata (clean_text "three".data) :=
  ⟨upload_metadata_is_cumulative (fun s => s) ["one two. ", "three"] 1
      (by decide),
   by decide⟩

/-! ## C9: idempotence of `clean_text`

`clean_text` is not idempotent: a substitution can uncover a fresh match
that only a second pass would strip (`re.sub` performs a single
left-to-right pass).  It is a no-op whenever its output carries no
residual markup, captured by `isCleanForm` below (a sufficient
condition: some outputs outside this form, e.g. a lone `-a`, also
happen to re-clean unchanged). -/

/-- C9 counterexample: `clean_text "*_*a*_*" = "*a*"` (the emphasis
matcher consumes `_*a*_` and the leftover stars pair up only on a second
pass, which yields `"a"`), so re-running `clean_text` on its own output
is not a no-op. -/
theorem clean_text_not_idempotent :
    clean_text (clean_text "*_*a*_*".data) ≠ clean_text "*_*a*_*".data := by
  decide

/-- A character none of the six markup passes can start or extend a
match from, and that lowercasing fixes. -/
def isTame (c : Char) : Bool :=
  c.toLower == c &&
    !(c == '#' || c == '[' || c == '*' || c == '_' || c == '!' ||
      c == '-' || c == '+')

/-- Normalized shape: every character is tame and the whitespace is
already collapsed (splitting and re-joining is the identity). -/
def isCleanForm (s : Chars) : Bool :=
  s.all isTame && List.intercalate [' '] (pySplit s) == s

lemma subScanF_id (try_ : Chars → Option (Chars × Nat))
    (hnone : ∀ l : Chars, (∀ c ∈ l, isTame c = true) → try_ l = none) :
    ∀ fuel (s : Chars), s.length ≤ fuel → (∀ c ∈ s, isTame c = true) →
      subScanF try_ fuel s = s := by
  intro fuel
  induction fuel with
  | zero =>
    intro s hs _
    cases s with
    | nil => rfl
    | cons c rest => simp at hs
  | succ f ihf =>
    intro s hs hb
    cases s with
    | nil => rfl
    | cons c rest =>
      rw [subScanF, hnone (c :: rest) hb]
      have : rest.length ≤ f := by
        simp only [List.length_cons] at hs; omega
      rw [ihf rest this (fun d hd => hb d (List.mem_cons_of_mem c hd))]

lemma subScanBOLF_id (try_ : Chars → Option (Nat × Bool))
    (hnone : ∀ l : Chars, (∀ c ∈ l, isTame c = true) → try_ l = none) :
    ∀ fuel (bol : Bool) (s : Chars), s.length ≤ fuel →
      (∀ c ∈ s, isTame c = true) → subScanBOLF try_ fuel bol s = s := by
  intro fuel
  induction fuel with
  | zero =>
    intro bol s hs _
    cases s with
    | nil => rfl
    | cons c rest => simp at hs
  | succ f ihf =>
    intro bol s hs hb
    cases s with
    | nil => rfl
    | cons c rest =>
      have hcase : (if bol then try_ (c :: rest) else none) = none := by
        cases bol with
        | false => rfl
        | true => simpa using hnone (c :: rest) hb
      rw [subScanBOLF, hcase]
      have : rest.length ≤ f := by
        simp only [List.length_cons] at hs; omega
      rw [ihf (c = '\n') rest this
        (fun d hd => hb d (List.mem_cons_of_mem c hd))]

lemma isTame_spec {c : Char} (h : isTame c = true) :
    c ≠ '#' ∧ c ≠ '[' ∧ c ≠ '!' ∧ isEmph c = false ∧ isBullet c = false ∧
      isHr c = false := by
  simp only [isTame, Bool.and_eq_true, Bool.not_eq_true', Bool.or_eq_false_iff,
    beq_eq_false_iff_ne, ne_eq] at h
  obtain ⟨-, ⟨⟨⟨⟨⟨⟨h1, h2⟩, h3⟩, h4⟩, h5⟩, h6⟩, h7⟩⟩ := h
  exact ⟨h1, h2, h5, by simp [isEmph, h3, h4], by simp [isBullet, h6, h3, h7],
    by simp [isHr, h6, h4, h3]⟩

lemma tryHeader_none (l : Chars) (h : ∀ c ∈ l, isTame c = true) :
    tryHeader l = none := by
  cases l with
  | nil => rfl
  | cons c rest =>
    have hc := (isTame_spec (h c (List.mem_cons_self c rest))).1
    rw [tryHeader, List.takeWhile_cons_of_neg (by simpa using hc)]
    simp

lemma tryLink_none (l : Chars) (h : ∀ c ∈ l, isTame c = true) :
    tryLink l = none := by
  unfold tryLink
  split
  · exact absurd rfl (isTame_spec (h '[' (List.mem_cons_self _ _))).2.1
  · rfl

lemma tryImage_none (l : Chars) (h : ∀ c ∈ l, isTame c = true) :
    tryImage l = none := by
  unfold tryImage
  split
  · exact absurd rfl (isTame_spec (h '!' (List.mem_cons_self _ _))).2.2.1
  · rfl

lemma tryBold_none (l : Chars) (h : ∀ c ∈ l, isTame c = true) :
    tryBold l = none := by
  cases l with
  | nil => rfl
  | cons c rest =>
    have hc := (isTame_spec (h c (List.mem_cons_self c rest))).2.2.2.1
    rw [tryBold, List.takeWhile_cons_of_neg (by simp [hc])]
    simp

lemma tryBullet_none (l : Chars) (h : ∀ c ∈ l, isTame c = true) :
    tryBullet l = none := by
  simp only [tryBullet]
  split
  · rename_i c rest heq
    have hmem : c ∈ l := by
      have hin : c ∈ l.drop (l.takeWhile isPySpace).length := by
        rw [heq]; exact List.mem_cons_self _ _
      exact List.mem_of_mem_drop hin
    have hc := (isTame_spec (h c hmem)).2.2.2.2.1
    simp [hc]
  · rfl

lemma tryHr_none (l : Chars) (h : ∀ c ∈ l, isTame c = true) :
    tryHr l = none := by
  cases l with
  | nil => rfl
  | cons c rest =>
    have hc := (isTame_spec (h c (List.mem_cons_self c rest))).2.2.2.2.2
    rw [tryHr, List.takeWhile_cons_of_neg (by simp [hc])]
    simp

lemma map_toLower_id (s : Chars) (h : ∀ c ∈ s, isTame c = true) :
    s.map Char.toLower = s := by
  induction s with
  | nil => rfl
  | cons c rest ih =>
    have hc : c.toLower = c := by
      have := h c (List.mem_cons_self c rest)
      simp only [isTame, Bool.and_eq_true, beq_iff_eq] at this
      exact this.1
    simp only [List.map_cons, hc]
    rw [ih (fun d hd => h d (List.mem_cons_of_mem c hd))]

/-- On a string in clean form, `clean_text` is the identity: every pass
finds nothing to do. -/
lemma clean_text_id_of_isCleanForm (s : Chars) (h : isCleanForm s = true) :
    clean_text s = s := by
  have hparts := h
  simp only [isCleanForm, Bool.and_eq_true, List.all_eq_true, beq_iff_eq]
    at hparts
  obtain ⟨htame, hjoin⟩ := hparts
  unfold clean_text subScan subScanBOL
  rw [map_toLower_id s htame,
    subScanF_id tryHeader tryHeader_none s.length s le_rfl htame,
    subScanF_id tryLink tryLink_none s.length s le_rfl htame,
    subScanF_id tryImage tryImage_none s.length s le_rfl htame,
    subScanF_id tryBold tryBold_none s.length s le_rfl htame,
    subScanBOLF_id tryBullet tryBullet_none s.length true s le_rfl htame,
    subScanBOLF_id tryHr tryHr_none s.length true s le_rfl htame,
    hjoin]

/-- C9 (amended): the cleaning step is not idempotent in general (a
second pass can strip markup uncovered by the first — see the
counterexample) but re-running `clean_text` is a no-op whenever the
first run's output is in clean form: all characters lowercase and free
of the markup trigger characters, whitespace already collapsed. -/
theorem clean_text_idempotent_on_clean_forms (t : Chars)
    (h : isCleanForm (clean_text t) = true) :
    clean_text (clean_text t) = clean_text t :=
  clean_text_id_of_isCleanForm (clean_text t) h

/-- Witness for C9's amended theorem: a clean input whose normalized
form re-cleans to itself. -/
theorem clean_text_idempotent_on_clean_forms_witness :
    clean_text (clean_text "Some plain  words.".data) =
      clean_text "Some plain  words.".data :=
  clean_text_idempotent_on_clean_forms "Some plain  words.".data (by decide)

/-! ## C3: chunk overlap and reconstruction

On whitespace-containing text the splitter cuts at separator boundaries
and strips chunks, so consecutive chunks do not share exactly 200
characters and the concatenation loses stripped whitespace (the
counterexample below).  On whitespace-free text every separator level
falls through to the character split and the merge loop degenerates to
exact sliding windows of width 1000 and stride 800, for which the
claimed overlap and reconstruction hold (the amended theorem). -/

/-- Sliding windows of width 1000 and stride 800. -/
def slidingChunks (t : Chars) : List Chars :=
  if t.length ≤ 1000 then [t]
  else t.take 1000 :: slidingChunks (t.drop 800)
termination_by t.length
decreasing_by simp only [List.length_drop]; omega

/-- `slidingChunks`, but the empty text yields no chunks (the splitter
drops a join that strips to the empty string). -/
def slidingStripped (t : Chars) : List Chars :=
  if t.isEmpty then [] else slidingChunks t

/-- Concatenate chunks, removing the known 200-character overlap from
every chunk after the first. -/
def reconstruct : List Chars → Chars
  | [] => []
  | c :: rest => c ++ (rest.map (fun d => d.drop 200)).flatten

lemma slidingChunks_of_le {t : Chars} (h : t.length ≤ 1000) :
    slidingChunks t = [t] := by
  unfold slidingChunks
  rw [if_pos h]

lemma slidingChunks_of_gt {t : Chars} (h : 1000 < t.length) :
    slidingChunks t = t.take 1000 :: slidingChunks (t.drop 800) := by
  conv_lhs => unfold slidingChunks
  rw [if_neg (by omega)]

set_option maxRecDepth 12000 in
/-- C3 counterexample: for the 1199-character text of 120 nine-letter
words, `get_text_chunks` yields two chunks (999 and 399 characters: the
splitter cuts at spaces and strips the second chunk's leading space), and
concatenating them with the known 200-character overlap removed does not
reconstruct the input text. -/
theorem get_text_chunks_not_reconstructible :
    (get_text_chunks (List.intercalate [' ']
        (List.replicate 120 (List.replicate 9 'a')))).length = 2
    ∧ reconstruct (get_text_chunks (List.intercalate [' ']
        (List.replicate 120 (List.replicate 9 'a'))))
      ≠ List.intercalate [' '] (List.replicate 120 (List.replicate 9 'a')) := by
  constructor
  · decide
  · decide

lemma flatten_map_sing (a : Chars) : (a.map (fun c => [c])).flatten = a := by
  induction a with
  | nil => rfl
  | cons x xs ih => simp [ih]

lemma dropWhile_id_of (p : Char → Bool) (a : Chars)
    (h : ∀ c ∈ a, p c = false) : a.dropWhile p = a := by
  cases a with
  | nil => rfl
  | cons c rest =>
    rw [List.dropWhile_cons, h c (List.mem_cons_self c rest)]
    simp

lemma pyStrip_id (a : Chars) (h : ∀ c ∈ a, isPySpace c = false) :
    pyStrip a = a := by
  unfold pyStrip
  rw [dropWhile_id_of isPySpace a h,
    dropWhile_id_of isPySpace a.reverse
      (fun c hc => h c (List.mem_reverse.mp hc)),
    List.reverse_reverse]

lemma joinDocs_sing (a : Chars) (hwa : ∀ c ∈ a, isPySpace c = false) :
    joinDocs (a.map (fun c => [c])) = if a.isEmpty then none else some a := by
  unfold joinDocs
  rw [flatten_map_sing, pyStrip_id a hwa]

lemma popWhile_sing (a : Chars) :
    popWhile 1 (a.map (fun c => [c])) a.length
      = ((a.drop (a.length - 200)).map (fun c => [c]),
          a.length - (a.length - 200)) := by
  induction a with
  | nil => rfl
  | cons x xs ih =>
    by_cases hn : 200 < xs.length + 1
    · have hcond : 200 < (x :: xs).length
          ∨ (1000 < (x :: xs).length + 1 ∧ 0 < (x :: xs).length) := by
        left; simpa using hn
      rw [List.map_cons, popWhile, if_pos hcond]
      have hsub : (x :: xs).length - ([x] : Chars).length = xs.length := by simp
      rw [hsub, ih]
      have h2 : (x :: xs).length - 200 = (xs.length - 200) + 1 := by
        simp only [List.length_cons]; omega
      rw [h2, List.drop_succ_cons]
      simp only [Prod.mk.injEq, List.length_cons]
      exact ⟨trivial, by omega⟩
    · have hcond : ¬ (200 < (x :: xs).length
          ∨ (1000 < (x :: xs).length + 1 ∧ 0 < (x :: xs).length)) := by
        simp only [List.length_cons] at hn ⊢
        omega
      rw [List.map_cons, popWhile, if_neg hcond]
      have h0 : (x :: xs).length - 200 = 0 := by
        simp only [List.length_cons] at hn ⊢; omega
      rw [h0]
      simp

lemma mergeGo_sing (r : Chars) : ∀ (a : Chars) (docs : List Chars),
    (∀ c ∈ a, isPySpace c = false) → (∀ c ∈ r, isPySpace c = false) →
    a.length ≤ 1000 →
    mergeGo docs (a.map (fun c => [c])) a.length (r.map (fun c => [c]))
      = docs ++ slidingStripped (a ++ r) := by
  induction r with
  | nil =>
    intro a docs hwa _ hle
    rw [List.map_nil, mergeGo, joinDocs_sing a hwa, List.append_nil]
    unfold slidingStripped
    by_cases ha : a.isEmpty
    · rw [if_pos ha, if_pos ha]; simp
    · rw [if_neg ha, if_neg ha, slidingChunks_of_le hle]
      simp
  | cons c r' ih =>
    intro a docs hwa hwr hle
    rw [List.map_cons, mergeGo]
    have hwr' : ∀ d ∈ r', isPySpace d = false :=
      fun d hd => hwr d (List.mem_cons_of_mem c hd)
    by_cases hlt : 1000 < a.length + ([c] : Chars).length
    · have h1000 : a.length = 1000 := by
        simp only [List.length_cons, List.length_nil] at hlt; omega
      have hane : a ≠ [] := by
        intro he; rw [he] at h1000; simp at h1000
      have hcur : (a.map (fun c => [c])).isEmpty = false := by
        simp [List.isEmpty_iff, hane]
      rw [if_pos hlt, hcur]
      simp only [Bool.false_eq_true, if_false, joinDocs_sing a hwa]
      have haE : a.isEmpty = false := by simp [List.isEmpty_iff, hane]
      rw [haE]
      simp only [Bool.false_eq_true, if_false, Option.toList_some]
      rw [show ([c] : Chars).length = 1 from rfl, popWhile_sing a, h1000,
        show (1000 : Nat) - 200 = 800 from rfl,
        show (1000 : Nat) - 800 = 200 from rfl]
      have hmapapp : ((a.drop 800).map (fun c => [c])) ++ [[c]]
          = ((a.drop 800) ++ [c]).map (fun c => [c]) := by
        simp
      have hlen201 : (200 : Nat) + 1 = ((a.drop 800) ++ [c]).length := by
        simp [List.length_drop, h1000]
      rw [hmapapp, hlen201,
        ih (a.drop 800 ++ [c]) (docs ++ [a])
          (by
            intro d hd
            rcases List.mem_append.mp hd with hd | hd
            · exact hwa d (List.mem_of_mem_drop hd)
            · rw [List.mem_singleton.mp hd]
              exact hwr c (List.mem_cons_self c r'))
          hwr'
          (by simp [List.length_drop, h1000])]
      have hsplit : slidingStripped (a ++ c :: r')
          = a :: slidingStripped (a.drop 800 ++ [c] ++ r') := by
        have hne2 : (a ++ c :: r') ≠ [] := by simp
        have hlong : 1000 < (a ++ c :: r').length := by
          simp [List.length_append, h1000]
        unfold slidingStripped
        rw [if_neg (by simp [List.isEmpty_iff]),
          slidingChunks_of_gt hlong]
        have htake : (a ++ c :: r').take 1000 = a := by
          rw [← h1000]
          exact List.take_left a (c :: r')
        have hdrop : (a ++ c :: r').drop 800 = a.drop 800 ++ c :: r' :=
          List.drop_append_of_le_length (by omega)
        rw [htake, hdrop,
          if_neg (by simp [List.isEmpty_iff]), List.append_assoc,
          List.singleton_append]
      rw [hsplit]
      simp
    · rw [if_neg hlt]
      have hmapapp : (a.map (fun c => [c])) ++ [[c]]
          = (a ++ [c]).map (fun c => [c]) := by simp
      have hlen : a.length + ([c] : Chars).length = (a ++ [c]).length := by
        simp
      rw [hmapapp, hlen,
        ih (a ++ [c]) docs
          (by
            intro d hd
            rcases List.mem_append.mp hd with hd | hd
            · exact hwa d hd
            · rw [List.mem_singleton.mp hd]
              exact hwr c (List.mem_cons_self c r'))
          hwr'
          (by
            simp only [List.length_append, List.length_cons,
              List.length_nil] at hlt ⊢
            omega)]
      rw [List.append_assoc, List.singleton_append]

lemma containsSub_false (x : Char) (xs t : Chars) (hx : x ∉ t) :
    containsSub (x :: xs) t = false := by
  induction t with
  | nil => rfl
  | cons c r ih =>
    rw [containsSub]
    have hxc : x ≠ c := fun he => hx (he ▸ List.mem_cons_self c r)
    have hpre : (x :: xs).isPrefixOf (c :: r) = false := by
      simp [List.isPrefixOf, hxc]
    rw [hpre, ih (fun hm => hx (List.mem_cons_of_mem c hm))]
    rfl

lemma pickSep_wsfree (t : Chars) (hnl : ('\n') ∉ t) (hsp : (' ') ∉ t) :
    pickSep defaultSeparators t = ([], []) := by
  have c1 : containsSub ['\n', '\n'] t = false := containsSub_false _ _ t hnl
  have c2 : containsSub ['\n'] t = false := containsSub_false _ _ t hnl
  have c3 : containsSub [' '] t = false := containsSub_false _ _ t hsp
  simp [defaultSeparators, pickSep, c1, c2, c3]

lemma mergeSplits_nil : mergeSplits [] = [] := rfl

lemma processLoop_allgood (sub : Option (Chars → List Chars)) :
    ∀ (rest good : List Chars), (∀ s ∈ rest, s.length < 1000) →
      processLoop sub good rest = mergeSplits (good ++ rest) := by
  intro rest
  induction rest with
  | nil =>
    intro good _
    simp only [processLoop, List.append_nil]
    by_cases hg : good.isEmpty
    · rw [if_pos hg, List.isEmpty_iff.mp hg]
      rfl
    · rw [if_neg hg]
  | cons s r ihr =>
    intro good hall
    simp only [processLoop]
    rw [if_pos (hall s (List.mem_cons_self s r))]
    rw [ihr (good ++ [s]) (fun u hu => hall u (List.mem_cons_of_mem _ hu))]
    congr 1
    simp

lemma get_text_chunks_wsfree (t : Chars)
    (hws : ∀ c ∈ t, isPySpace c = false) :
    get_text_chunks t = mergeSplits (t.map (fun c => [c])) := by
  have hnl : ('\n') ∉ t := fun hmem => absurd (hws '\n' hmem) (by decide)
  have hsp : (' ') ∉ t := fun hmem => absurd (hws ' ' hmem) (by decide)
  have hpick := pickSep_wsfree t hnl hsp
  show splitTextAux 4 defaultSeparators t = _
  rw [show (4 : Nat) = 3 + 1 from rfl, splitTextAux, hpick]
  have hkeep : splitKeepSep t ((([] : Chars), ([] : List Chars)).1)
      = t.map (fun c => [c]) := by
    simp [splitKeepSep]
  rw [hkeep]
  rw [processLoop_allgood _ (t.map (fun c => [c])) []
    (by
      intro s hs
      rcases List.mem_map.mp hs with ⟨c, _, rfl⟩
      simp)]
  rfl

lemma slidingChunks_head (s : Chars) :
    (slidingChunks s).getD 0 [] = s.take 1000 := by
  by_cases h : s.length ≤ 1000
  · rw [slidingChunks_of_le h]
    simp [List.take_of_length_le h]
  · rw [slidingChunks_of_gt (by omega)]
    simp

lemma slidingChunks_overlap_aux : ∀ (n : Nat) (t : Chars), t.length ≤ n →
    ∀ i, i + 1 < (slidingChunks t).length →
      ((slidingChunks t).getD i []).drop
          (((slidingChunks t).getD i []).length - 200)
        = ((slidingChunks t).getD (i + 1) []).take 200 := by
  intro n
  induction n with
  | zero =>
    intro t ht i hi
    have : t = [] := List.length_eq_zero.mp (Nat.le_zero.mp ht)
    rw [this, slidingChunks_of_le (by simp)] at hi
    simp at hi
  | succ n ihn =>
    intro t ht i hi
    by_cases h : t.length ≤ 1000
    · rw [slidingChunks_of_le h] at hi
      simp at hi
    · have h' : 1000 < t.length := by omega
      rw [slidingChunks_of_gt h'] at hi ⊢
      cases i with
      | zero =>
        simp only [List.getD_cons_zero, List.getD_cons_succ]
        have hlen : (t.take 1000).length = 1000 := by
          simp [List.length_take]; omega
        rw [hlen, slidingChunks_head]
        have hdt : (t.take 1000).drop 800 = (t.drop 800).take 200 := by
          have := List.drop_take 1000 800 t
          simpa using this
        rw [show (1000 : Nat) - 200 = 800 from rfl, hdt, List.take_take]
        norm_num
      | succ j =>
        simp only [List.getD_cons_succ]
        apply ihn (t.drop 800) (by simp [List.length_drop]; omega) j
        simpa using hi

lemma slidingChunks_reconstruct_aux : ∀ (n : Nat) (t : Chars),
    t.length ≤ n → reconstruct (slidingChunks t) = t := by
  intro n
  induction n with
  | zero =>
    intro t ht
    have ht0 : t = [] := List.length_eq_zero.mp (Nat.le_zero.mp ht)
    rw [ht0, slidingChunks_of_le (by simp)]
    simp [reconstruct]
  | succ n ihn =>
    intro t ht
    by_cases h : t.length ≤ 1000
    · rw [slidingChunks_of_le h]
      simp [reconstruct]
    · have h' : 1000 < t.length := by omega
      rw [slidingChunks_of_gt h']
      have hrec := ihn (t.drop 800) (by simp [List.length_drop]; omega)
      obtain ⟨tl, htl⟩ : ∃ tl,
          slidingChunks (t.drop 800) = (t.drop 800).take 1000 :: tl := by
        by_cases h2 : (t.drop 800).length ≤ 1000
        · exact ⟨[], by rw [slidingChunks_of_le h2, List.take_of_length_le h2]⟩
        · exact ⟨_, slidingChunks_of_gt (by omega)⟩
      rw [htl] at hrec
      rw [htl]
      simp only [reconstruct, List.map_cons, List.flatten_cons] at hrec ⊢
      have hlen : 200 ≤ ((t.drop 800).take 1000).length := by
        simp [List.length_take, List.length_drop]; omega
      have key : ((t.drop 800).take 1000).drop 200
            ++ (tl.map (fun d => d.drop 200)).flatten
          = t.drop 1000 := by
        rw [← List.drop_append_of_le_length hlen, hrec, List.drop_drop]
      rw [key, List.take_append_drop]

/-- C3 (amended): the chunker does not give exactly-200-character
overlaps in general (see the counterexample: boundary splitting and
stripping lose characters).  For whitespace-free input text the splitter
degenerates to sliding windows of width 1000 and stride 800:
`get_text_chunks` returns exactly those windows, every consecutive pair
of chunks shares exactly 200 characters of suffix/prefix overlap, and
concatenating the chunks with the known 200-character overlap removed
reconstructs the input text. -/
theorem get_text_chunks_wsfree_sliding (t : Chars) (hne : t ≠ [])
    (hws : ∀ c ∈ t, isPySpace c = false) :
    get_text_chunks t = slidingChunks t
    ∧ (∀ i, i + 1 < (get_text_chunks t).length →
        ((get_text_chunks t).getD i []).drop
            (((get_text_chunks t).getD i []).length - 200)
          = ((get_text_chunks t).getD (i + 1) []).take 200)
    ∧ reconstruct (get_text_chunks t) = t := by
  have heq : get_text_chunks t = slidingChunks t := by
    rw [get_text_chunks_wsfree t hws]
    have hm := mergeGo_sing t [] [] (by simp) hws (by simp)
    simp only [List.map_nil, List.length_nil, List.nil_append] at hm
    rw [mergeSplits, hm]
    unfold slidingStripped
    rw [if_neg (by simpa [List.isEmpty_iff] using hne)]
  refine ⟨heq, ?_, ?_⟩
  · rw [heq]
    exact slidingChunks_overlap_aux t.length t le_rfl
  · rw [heq]
    exact slidingChunks_reconstruct_aux t.length t le_rfl

/-- Witness for C3's amended theorem at a concrete whitespace-free text
of 1500 characters (two windows: 1000 and 700 characters). -/
theorem get_text_chunks_wsfree_sliding_witness :
    get_text_chunks (List.replicate 1500 'a')
        = slidingChunks (List.replicate 1500 'a')
    ∧ (∀ i, i + 1 < (get_text_chunks (List.replicate 1500 'a')).length →
        ((get_text_chunks (List.replicate 1500 'a')).getD i []).drop
            (((get_text_chunks (List.replicate 1500 'a')).getD i []).length
              - 200)
          = ((get_text_chunks (List.replicate 1500 'a')).getD (i + 1) []).take
              200)
    ∧ reconstruct (get_text_chunks (List.replicate 1500 'a'))
        = List.replicate 1500 'a' :=
  get_text_chunks_wsfree_sliding (List.replicate 1500 'a')
    (List.ne_nil_of_length_pos (by rw [List.length_replicate]; omega))
    (fun c hc => by rw [List.eq_of_mem_replicate hc]; decide)

end Walter
